import Mathlib

/-!
Verification of the pbrtrs light-transport core against its specification.

Shallow embedding notes:
* `Scalar` in the source is `f32`; it is modelled as `ℚ` (exact arithmetic)
  except where square roots or `π` are required, in which case `ℝ` is used.
  A uniform random draw `scalar::rand()` is modelled as an explicit
  parameter `u` ranging over `[0, 1)`.
* IEEE division by zero does not produce a real number (NaN / ±∞); where a
  division's denominator can be zero in the source, the embedding returns
  `Option ℚ` with `none` standing for the non-real result.
-/

namespace Pbrtrs

/-- A triple of scalars (source `Pt3` / `Vec3` / `Color` over `f32`),
modelled over `ℚ`. -/
structure Q3 where
  x : ℚ
  y : ℚ
  z : ℚ
  deriving DecidableEq, Repr

/-- Source `color::BLACK = color(0.0, 0.0, 0.0)` (types.rs). -/
def BLACK : Q3 := ⟨0, 0, 0⟩

/-- Source `util.rs::max_value3`:
`if v[0] > v[1] && v[0] > v[2] { v[0] } else if v[1] > v[2] { v[1] } else { v[2] }`. -/
def max_value3 (v : Q3) : ℚ :=
  if v.x > v.y ∧ v.x > v.z then v.x
  else if v.y > v.z then v.y
  else v.z

/-- Source `raytracer.rs` line 89, the Russian-roulette step inside
`ray_color`'s bounce loop:
`if bounce_count > 3 && (1.0 - max_value3(beta).max(0.7)) < scalar::rand() { break; }`.
`u` is the fresh uniform draw returned by `scalar::rand()`. -/
def russianRouletteBreak (bounceCount : ℕ) (beta : Q3) (u : ℚ) : Prop :=
  3 < bounceCount ∧ 1 - max (max_value3 beta) (7/10) < u

instance (bounceCount : ℕ) (beta : Q3) (u : ℚ) :
    Decidable (russianRouletteBreak bounceCount beta u) := by
  unfold russianRouletteBreak; infer_instance

/-- Source `distribution.rs::power_heuristic`:
`let f = nf * f_pdf; let g = ng * g_pdf; (f * f) / (f * f + g * g)`. -/
def power_heuristic (nf f_pdf ng g_pdf : ℚ) : ℚ :=
  let f := nf * f_pdf
  let g := ng * g_pdf
  (f * f) / (f * f + g * g)

/-- Source `bxdf/distribution.rs::TrowbridgeReitzDistribution`: stores the
clamped roughness pair `alpha : Pt2`. -/
structure TrowbridgeReitzDistribution where
  alphaX : ℚ
  alphaY : ℚ
  deriving DecidableEq, Repr

/-- Source `TrowbridgeReitzDistribution::new`:
`TrowbridgeReitzDistribution { alpha: alpha.map(|v| v.max(0.001)) }`
(`0.001 = 1/1000`). -/
def TrowbridgeReitzDistribution.new (alpha : ℚ × ℚ) : TrowbridgeReitzDistribution :=
  ⟨max alpha.1 (1/1000), max alpha.2 (1/1000)⟩

/-- Source `TrowbridgeReitzDistribution::is_specular`:
`self.alpha.x < 0.04 && self.alpha.y < 0.04` (`0.04 = 1/25`). -/
def TrowbridgeReitzDistribution.is_specular (d : TrowbridgeReitzDistribution) : Prop :=
  d.alphaX < 1/25 ∧ d.alphaY < 1/25

instance (d : TrowbridgeReitzDistribution) : Decidable d.is_specular := by
  unfold TrowbridgeReitzDistribution.is_specular; infer_instance

/-- Source `material/mod.rs::TransportMode` (radiance vs importance transport). -/
inductive TransportMode where
  | Radiance
  | Importance
  deriving DecidableEq, Repr

/-- Source `bxdf/mod.rs::ReflectionSpecular<F>`; the Fresnel term is modelled
abstractly as a function from `cos_i` to a color. -/
structure ReflectionSpecular where
  color : Q3
  fresnel : ℚ → Q3

/-- Source `impl BxDF for ReflectionSpecular`: `fn f(&self, _wo, _wi) -> Color { BLACK }`. -/
def ReflectionSpecular.f (_s : ReflectionSpecular) (_wo _wi : Q3) : Q3 := BLACK

/-- Source `impl BxDF for ReflectionSpecular`: `fn pdf(&self, _wo, _wi) -> Scalar { 0.0 }`. -/
def ReflectionSpecular.pdf (_s : ReflectionSpecular) (_wo _wi : Q3) : ℚ := 0

/-- Source `bxdf/mod.rs::TransmissionSpecular<F>`. -/
structure TransmissionSpecular where
  color : Q3
  eta_a : ℚ
  eta_b : ℚ
  fresnel : ℚ → Q3
  transport_mode : TransportMode

/-- Source `impl BxDF for TransmissionSpecular`: `fn f(&self, _wo, _wi) -> Color { BLACK }`. -/
def TransmissionSpecular.f (_s : TransmissionSpecular) (_wo _wi : Q3) : Q3 := BLACK

/-- Source `impl BxDF for TransmissionSpecular`: `fn pdf(&self, _wo, _wi) -> Scalar { 0.0 }`. -/
def TransmissionSpecular.pdf (_s : TransmissionSpecular) (_wo _wi : Q3) : ℚ := 0

/-- Source `bxdf/mod.rs::FresnelSpecular`. -/
structure FresnelSpecular where
  color : Q3
  eta_a : ℚ
  eta_b : ℚ
  transport_mode : TransportMode

/-- Source `impl BxDF for FresnelSpecular`: `fn f(&self, _wo, _wi) -> Color { BLACK }`. -/
def FresnelSpecular.f (_s : FresnelSpecular) (_wo _wi : Q3) : Q3 := BLACK

/-- Source `impl BxDF for FresnelSpecular`: `fn pdf(&self, _wo, _wi) -> Scalar { 0.0 }`. -/
def FresnelSpecular.pdf (_s : FresnelSpecular) (_wo _wi : Q3) : ℚ := 0

/-- Source `distribution.rs::binary_search_cdf`, the `while low < high` loop:
`let mid = (low + high) / 2; if cdf[mid] <= value { low = mid + 1 } else { high = mid }`,
returning `low` when the loop exits. Out-of-range indexing is modelled by
`List.getD _ _ 0`; the source never indexes out of range for the arguments it
is called with. -/
def bsearchLoop (cdf : List ℚ) (value : ℚ) (low high : ℕ) : ℕ :=
  if _h : low < high then
    let mid := (low + high) / 2
    if cdf.getD mid 0 ≤ value then bsearchLoop cdf value (mid + 1) high
    else bsearchLoop cdf value low mid
  else low
termination_by high - low
decreasing_by
  · omega
  · omega

/-- Rust `isize::clamp(lo, hi)` (`min(max(x, lo), hi)`, requires `lo ≤ hi`). -/
def clampI (x lo hi : ℤ) : ℤ := min (max x lo) hi

/-- Source `distribution.rs::binary_search_cdf`:
the loop above started at `low = 0`, `high = cdf.len() - 1`, followed by
`(low as isize - 1).clamp(0, cdf.len() as isize - 1) as usize`. -/
def binary_search_cdf (cdf : List ℚ) (value : ℚ) : ℕ :=
  (clampI ((bsearchLoop cdf value 0 (cdf.length - 1) : ℤ) - 1)
    0 ((cdf.length : ℤ) - 1)).toNat

/-- Source `distribution.rs::Distribution1D` (fields `cdf`, `func`, `integral`). -/
structure Distribution1D where
  cdf : List ℚ
  func : List ℚ
  integral : ℚ
  deriving DecidableEq, Repr

/-- Source `Distribution1D::new`. The source builds
`cdf[0] = 0, cdf[i] = cdf[i-1] + func[i-1] / n` (so `cdf[i] = (Σ_{j<i} func[j]) / n`
in exact arithmetic), sets `integral = cdf[n]`, then either overwrites with the
uniform CDF `cdf[i] = i / n` when `integral == 0` or divides every entry by
`integral`. -/
def Distribution1D.new (func : List ℚ) : Distribution1D :=
  let n := func.length
  let cdfRaw : List ℚ := (List.range (n + 1)).map (fun i => (func.take i).sum / n)
  let integral := cdfRaw.getD n 0
  if integral = 0 then
    ⟨(List.range (n + 1)).map (fun i : ℕ => (i : ℚ) / n), func, integral⟩
  else
    ⟨cdfRaw.map (· / integral), func, integral⟩

/-- Source `Distribution1D::count`: `self.func.len()`. -/
def Distribution1D.count (d : Distribution1D) : ℕ := d.func.length

/-- Source `Distribution1D::sample_continuous`; returns
`((offset, sampled position), pdf)` where the source writes the pdf through an
out-parameter. Note the source divides the sampled position by
`self.cdf.len()` (which is `n + 1`), not by `self.count()`. -/
def Distribution1D.sample_continuous (d : Distribution1D) (u : ℚ) : (ℕ × ℚ) × ℚ :=
  let offset := binary_search_cdf d.cdf u
  let du0 := u - d.cdf.getD offset 0
  let du := if d.cdf.getD (offset + 1) 0 - d.cdf.getD offset 0 > 0
            then du0 / (d.cdf.getD (offset + 1) 0 - d.cdf.getD offset 0)
            else du0
  let pdf := d.func.getD offset 0 / d.integral
  ((offset, ((offset : ℚ) + du) / (d.cdf.length : ℚ)), pdf)

/-- Source `Distribution1D::sample_discrete`: returns `(offset, u')` with
`u' = (u - cdf[offset]) / (cdf[offset + 1] - cdf[offset])`. -/
def Distribution1D.sample_discrete (d : Distribution1D) (u : ℚ) : ℕ × ℚ :=
  let offset := binary_search_cdf d.cdf u
  (offset, (u - d.cdf.getD offset 0) /
    (d.cdf.getD (offset + 1) 0 - d.cdf.getD offset 0))

/-- Element-wise addition on triples (source `add_assign_element_wise` /
`add_element_wise` on `Pt3`). -/
def Q3.add (a b : Q3) : Q3 := ⟨a.x + b.x, a.y + b.y, a.z + b.z⟩

instance : Add Q3 := ⟨Q3.add⟩

instance : Zero Q3 := ⟨BLACK⟩

instance : AddCommMonoid Q3 where
  add := Q3.add
  zero := BLACK
  add_assoc a b c := by
    show Q3.add (Q3.add a b) c = Q3.add a (Q3.add b c)
    cases a; cases b; cases c
    simp only [Q3.add, Q3.mk.injEq]
    exact ⟨add_assoc _ _ _, add_assoc _ _ _, add_assoc _ _ _⟩
  zero_add a := by
    show Q3.add BLACK a = a
    cases a
    simp [Q3.add, BLACK]
  add_zero a := by
    show Q3.add a BLACK = a
    cases a
    simp [Q3.add, BLACK]
  add_comm a b := by
    show Q3.add a b = Q3.add b a
    cases a; cases b
    simp only [Q3.add, Q3.mk.injEq]
    exact ⟨add_comm _ _, add_comm _ _, add_comm _ _⟩
  nsmul := nsmulRec

/-- Dot product on triples (cgmath `InnerSpace::dot`). -/
def dot3 (a b : Q3) : ℚ := a.x * b.x + a.y * b.y + a.z * b.z

/-- Source `BxDFKind(u8)` bitfield, modelled as a natural number. -/
abbrev BxDFKind := ℕ

/-- Source `BxDFKind::REFLECTION = 1 << 0`. -/
def BxDFKind.REFLECTION : BxDFKind := 1

/-- Source `BxDFKind::TRANSMISSION = 1 << 1`. -/
def BxDFKind.TRANSMISSION : BxDFKind := 2

/-- Source `BxDFKind::DIFFUSE = 1 << 2`. -/
def BxDFKind.DIFFUSE : BxDFKind := 4

/-- Source `BxDFKind::GLOSSY = 1 << 3`. -/
def BxDFKind.GLOSSY : BxDFKind := 8

/-- Source `BxDFKind::SPECULAR = 1 << 4`. -/
def BxDFKind.SPECULAR : BxDFKind := 16

/-- Source `util.rs` bitfield method `set`: `self.0 | other.0`. -/
def BxDFKind.set (a b : BxDFKind) : BxDFKind := a ||| b

/-- Source `BxDFKind::ALL = DIFFUSE | GLOSSY | SPECULAR | REFLECTION | TRANSMISSION`. -/
def BxDFKind.ALL : BxDFKind :=
  ((((BxDFKind.DIFFUSE.set BxDFKind.GLOSSY).set BxDFKind.SPECULAR).set
    BxDFKind.REFLECTION).set BxDFKind.TRANSMISSION)

/-- Source `util.rs` bitfield method `has`: `self.0 & other.0 != 0`. -/
def BxDFKind.has (a b : BxDFKind) : Prop := a &&& b ≠ 0

instance (a b : BxDFKind) : Decidable (a.has b) := by
  unfold BxDFKind.has; infer_instance

/-- Source `util.rs` bitfield method `matches`: `(self.0 & other.0) == self.0`. -/
def BxDFKind.matches (a b : BxDFKind) : Prop := a &&& b = a

instance (a b : BxDFKind) : Decidable (a.matches b) := by
  unfold BxDFKind.matches; infer_instance

/-- Model of a borrowed `&dyn BxDF` trait object stored in a `BSDF`. The
functions `f` and `pdfFn` are the term's `f` and `pdf` methods; `sampleF wo`
is the tuple `(wi, pdf, f, sampled_kind)` the term's `sample_f` produces for
`wo` (with whatever internal randomness that call consumed, which the
aggregate never inspects). -/
structure BxDFTerm where
  kind : BxDFKind
  f : Q3 → Q3 → Q3
  pdfFn : Q3 → Q3 → ℚ
  sampleF : Q3 → Q3 × ℚ × Q3 × BxDFKind

/-- Source `bxdf/mod.rs::BSDF`: the term list plus the four frame vectors. -/
structure BSDF where
  bxdfs : List BxDFTerm
  surface_normal : Q3
  geom_normal : Q3
  surface_tangent : Q3
  surface_cotangent : Q3

/-- Source `BSDF::world_to_normal`:
`vec3(v.dot(cotangent), v.dot(tangent), v.dot(normal))`. -/
def BSDF.world_to_normal (b : BSDF) (v : Q3) : Q3 :=
  ⟨dot3 v b.surface_cotangent, dot3 v b.surface_tangent, dot3 v b.surface_normal⟩

/-- Source `BSDF::normal_to_world` (the transpose expansion). -/
def BSDF.normal_to_world (b : BSDF) (v : Q3) : Q3 :=
  ⟨b.surface_cotangent.x * v.x + b.surface_tangent.x * v.y + b.surface_normal.x * v.z,
   b.surface_cotangent.y * v.x + b.surface_tangent.y * v.y + b.surface_normal.y * v.z,
   b.surface_cotangent.z * v.x + b.surface_tangent.z * v.y + b.surface_normal.z * v.z⟩

/-- Source `BSDF::num_components`: count of stored terms whose kind matches
the query mask. -/
def BSDF.num_components (b : BSDF) (kind : BxDFKind) : ℕ :=
  (b.bxdfs.filter (fun t => decide (t.kind.matches kind))).length

/-- Source `BSDF::f_normal_space`: sum of `f` over the terms whose kind
matches the mask and whose REFLECTION/TRANSMISSION bit agrees with the
`reflect` flag, accumulated from `BLACK`. -/
def BSDF.f_normal_space (b : BSDF) (wo wi : Q3) (reflect : Bool) (kind : BxDFKind) : Q3 :=
  (b.bxdfs.filter (fun t =>
    decide (t.kind.matches kind) &&
      ((reflect && decide (t.kind.has BxDFKind.REFLECTION)) ||
       (!reflect && decide (t.kind.has BxDFKind.TRANSMISSION))))).foldl
    (fun f t => f + t.f wo wi) BLACK

/-- IEEE float division: a zero denominator produces NaN or ±infinity, which
is not a real number; that outcome is modelled as `none`. -/
def fdiv (a b : ℚ) : Option ℚ := if b = 0 then none else some (a / b)

/-- Source `BSDF::pdf`: fold `(count + 1, pdf + bxdf.pdf(wo, wi))` over the
terms matching the mask, starting from `(0, 0.0)`, then divide
`pdf / count as Scalar`. The final division is IEEE `0.0 / 0.0` when no term
matches. -/
def BSDF.pdf (b : BSDF) (wo wi : Q3) (kind : BxDFKind) : Option ℚ :=
  let cp := (b.bxdfs.filter (fun t => decide (t.kind.matches kind))).foldl
    (fun cp t => (cp.1 + 1, cp.2 + t.pdfFn wo wi)) ((0 : ℕ), (0 : ℚ))
  fdiv cp.2 (cp.1 : ℚ)

/-- Result record for `BSDF::sample_f` (the source returns the color and
writes `wi_world`, `pdf` and `sampled_kind` through `&mut` out-parameters;
the out-parameters' incoming values are `wi0` and `sk0` below and are left in
place on the early-return paths that do not write them). -/
structure SampleFOut where
  f : Q3
  wi_world : Q3
  pdf : ℚ
  sampled_kind : BxDFKind

/-- Source `BSDF::sample_f`. `u` is the uniform draw `scalar::rand()` used to
pick the component:
`comp = ((rand * num_matching).floor() as usize).min(num_matching - 1)`,
the selected term is `bxdfs.iter().enumerate().filter(matches).nth(comp)`
(the source `unwrap`s; the `none` arm below is unreachable), and the rest
follows the source line by line. -/
def BSDF.sample_f (b : BSDF) (wo_world : Q3) (u : ℚ) (wi0 : Q3) (sk0 : BxDFKind)
    (kind : BxDFKind) : SampleFOut :=
  let num_matching := b.num_components kind
  if num_matching = 0 then ⟨BLACK, wi0, 0, sk0⟩
  else
    let comp := min (Int.toNat ⌊u * (num_matching : ℚ)⌋) (num_matching - 1)
    match (b.bxdfs.enum.filter (fun p => decide (p.2.kind.matches kind)))[comp]? with
    | none => ⟨BLACK, wi0, 0, sk0⟩
    | some (bxdf_index, bxdf) =>
      let wo := b.world_to_normal wo_world
      if wo.z = 0 then ⟨BLACK, wi0, 0, sk0⟩
      else
        let s := bxdf.sampleF wo
        let wi := s.1
        let pdf0 := s.2.1
        let f0 := s.2.2.1
        let sk := s.2.2.2
        let wi_world := b.normal_to_world wi
        if bxdf.kind.has BxDFKind.SPECULAR then ⟨f0, wi_world, pdf0, sk⟩
        else
          let pdfSum := pdf0 + ((b.bxdfs.enum.filter (fun p =>
              decide (p.1 ≠ bxdf_index) && decide (p.2.kind.matches kind))).map
              (fun p => p.2.pdfFn wo wi)).sum
          let pdfAvg := pdfSum / (num_matching : ℚ)
          if 1 < num_matching then
            let reflect :=
              decide (0 < dot3 wi_world b.geom_normal * dot3 wo_world b.geom_normal)
            ⟨b.f_normal_space wo wi reflect kind, wi_world, pdfAvg, sk⟩
          else ⟨f0, wi_world, pdfAvg, sk⟩

/-- Concrete diffuse-reflective term used by the `bsdf_sample_f_spec` witness. -/
def wTermA : BxDFTerm :=
  ⟨BxDFKind.DIFFUSE.set BxDFKind.REFLECTION, fun _ _ => ⟨1, 0, 0⟩, fun _ _ => 1,
   fun _ => (⟨0, 0, 1⟩, 1, ⟨1, 0, 0⟩, BxDFKind.DIFFUSE.set BxDFKind.REFLECTION)⟩

/-- Concrete glossy-reflective term used by the `bsdf_sample_f_spec` witness. -/
def wTermB : BxDFTerm :=
  ⟨BxDFKind.GLOSSY.set BxDFKind.REFLECTION, fun _ _ => ⟨0, 1, 0⟩, fun _ _ => 1/2,
   fun _ => (⟨0, 0, 1⟩, 1/2, ⟨0, 1, 0⟩, BxDFKind.GLOSSY.set BxDFKind.REFLECTION)⟩

/-- Concrete two-term BSDF with the canonical frame, used by the
`bsdf_sample_f_spec` witness. -/
def wBSDF : BSDF := ⟨[wTermA, wTermB], ⟨0, 0, 1⟩, ⟨0, 0, 1⟩, ⟨0, 1, 0⟩, ⟨1, 0, 0⟩⟩

/-- A triple of scalars over `ℝ`, for the parts of the code that need square
roots (vector normalization). -/
@[ext]
structure R3 where
  x : ℝ
  y : ℝ
  z : ℝ

/-- Dot product over `ℝ` (cgmath `InnerSpace::dot`). -/
def dotR (a b : R3) : ℝ := a.x * b.x + a.y * b.y + a.z * b.z

/-- Cross product (cgmath `Vector3::cross`). -/
def crossR (a b : R3) : R3 :=
  ⟨a.y * b.z - a.z * b.y, a.z * b.x - a.x * b.z, a.x * b.y - a.y * b.x⟩

/-- Normalization (cgmath `InnerSpace::normalize`:
`self * (1 / magnitude)` with `magnitude = sqrt(self.dot(self))`). -/
noncomputable def normalizeR (v : R3) : R3 :=
  ⟨v.x * (1 / Real.sqrt (dotR v v)), v.y * (1 / Real.sqrt (dotR v v)),
   v.z * (1 / Real.sqrt (dotR v v))⟩

/-- The four frame vectors stored by `BSDF` (`bxdf/mod.rs` lines 462-468),
over `ℝ`. -/
structure BSDFFrame where
  surface_normal : R3
  geom_normal : R3
  surface_tangent : R3
  surface_cotangent : R3

/-- Source `BSDF::new`: `geom_normal = intersect.normal`,
`surface_normal = intersect.normal`, `surface_tangent = intersect.tangent`,
`surface_cotangent = surface_normal.cross(surface_tangent).normalize()`. -/
noncomputable def BSDFFrame.new (normal tangent : R3) : BSDFFrame :=
  ⟨normal, normal, tangent, normalizeR (crossR normal tangent)⟩

/-- Source `BSDF::world_to_normal` over `ℝ`. -/
def BSDFFrame.world_to_normal (fr : BSDFFrame) (v : R3) : R3 :=
  ⟨dotR v fr.surface_cotangent, dotR v fr.surface_tangent, dotR v fr.surface_normal⟩

/-- Source `BSDF::normal_to_world` over `ℝ`. -/
def BSDFFrame.normal_to_world (fr : BSDFFrame) (v : R3) : R3 :=
  ⟨fr.surface_cotangent.x * v.x + fr.surface_tangent.x * v.y + fr.surface_normal.x * v.z,
   fr.surface_cotangent.y * v.x + fr.surface_tangent.y * v.y + fr.surface_normal.y * v.z,
   fr.surface_cotangent.z * v.x + fr.surface_tangent.z * v.y + fr.surface_normal.z * v.z⟩

/-- The function `max_value3` computes the maximum of the three components. -/
theorem max_value3_eq_max (v : Q3) : max_value3 v = max v.x (max v.y v.z) := by
  unfold max_value3
  split_ifs with h1 h2
  · exact (max_eq_left (max_le h1.1.le h1.2.le)).symm
  · push_neg at h1
    rcases le_or_lt v.x v.y with h | h
    · rw [max_eq_left h2.le, max_eq_right h]
    · exact absurd (h1 h) (not_le.2 (h2.trans h))
  · push_neg at h1 h2
    rcases le_or_lt v.x v.y with h | h
    · rw [max_eq_right h2, max_eq_right (h.trans h2)]
    · rw [max_eq_right h2, max_eq_right (h1 h)]

/-- C1 counterexample: for throughput `beta = (1/2, 1/2, 1/2)` at bounce 4, the
set of uniform draws `u ∈ [0,1)` on which the code terminates the path is the
interval `(3/10, 1)`, of measure `7/10`; the claim's termination probability
`1 - min(max_value3 beta, 0.7)` evaluates to `1/2 ≠ 7/10`, and the kill
probability `7/10` exceeds 30%. -/
theorem rr_kill_probability_counterexample :
    (∀ u : ℚ, 0 ≤ u → u < 1 →
      (russianRouletteBreak 4 ⟨1/2, 1/2, 1/2⟩ u ↔ u ∈ Set.Ioo (3/10 : ℚ) 1))
    ∧ 1 - min (max_value3 ⟨1/2, 1/2, 1/2⟩) (7/10) = (1/2 : ℚ)
    ∧ (1 : ℚ) - 3/10 ≠ 1 - min (max_value3 ⟨1/2, 1/2, 1/2⟩) (7/10)
    ∧ ¬ ((1 : ℚ) - 3/10 ≤ 3/10) := by
  refine ⟨?_, by norm_num [max_value3], by norm_num [max_value3], by norm_num⟩
  intro u h0 h1
  simp only [russianRouletteBreak, Set.mem_Ioo]
  norm_num [max_value3]
  exact fun h => h1

/-- C1 (amended): after bounce 3 the path terminates exactly when the fresh
uniform draw `u` satisfies `1 - max(max_value3 beta, 0.7) < u`; for throughput
with `max_value3 beta ≤ 1` the termination set inside `[0,1)` is the interval
`(1 - max(max_value3 beta, 0.7), 1)`, of measure `max(max_value3 beta, 0.7)`,
which is at least `0.7`: the per-step kill probability is floored (not capped)
at 70%, and the survival probability is at most 30%. -/
theorem rr_kill_probability (bounceCount : ℕ) (beta : Q3) (hb : 3 < bounceCount) :
    (∀ u : ℚ, 0 ≤ u → u < 1 →
       (russianRouletteBreak bounceCount beta u ↔
         1 - max (max_value3 beta) (7/10) < u))
    ∧ (max_value3 beta ≤ 1 →
        {u : ℚ | 0 ≤ u ∧ u < 1 ∧ russianRouletteBreak bounceCount beta u}
          = Set.Ioo (1 - max (max_value3 beta) (7/10)) 1)
    ∧ 1 - (1 - max (max_value3 beta) (7/10)) = max (max_value3 beta) (7/10)
    ∧ (7/10 : ℚ) ≤ max (max_value3 beta) (7/10) := by
  refine ⟨fun u _ _ => ⟨fun h => h.2, fun h => ⟨hb, h⟩⟩, fun hle => ?_, by ring,
    le_max_right _ _⟩
  have hM1 : max (max_value3 beta) (7/10) ≤ 1 := max_le hle (by norm_num)
  ext u
  simp only [Set.mem_setOf_eq, Set.mem_Ioo, russianRouletteBreak]
  constructor
  · rintro ⟨_, hlt, _, hgt⟩
    exact ⟨hgt, hlt⟩
  · rintro ⟨hgt, hlt⟩
    refine ⟨le_trans (by linarith) hgt.le, hlt, hb, hgt⟩

/-- Witness for `rr_kill_probability` at `bounceCount = 4`,
`beta = (1/2, 1/2, 1/2)`. -/
theorem rr_kill_probability_witness :
    ({u : ℚ | 0 ≤ u ∧ u < 1 ∧ russianRouletteBreak 4 ⟨1/2, 1/2, 1/2⟩ u}
        = Set.Ioo (1 - max (max_value3 ⟨1/2, 1/2, 1/2⟩) (7/10)) 1)
    ∧ (7/10 : ℚ) ≤ max (max_value3 ⟨1/2, 1/2, 1/2⟩) (7/10) :=
  ⟨(rr_kill_probability 4 ⟨1/2, 1/2, 1/2⟩ (by norm_num)).2.1 (by norm_num [max_value3]),
   (rr_kill_probability 4 ⟨1/2, 1/2, 1/2⟩ (by norm_num)).2.2.2⟩

/-- C9: `power_heuristic(1, p, 1, p) = 1/2` for positive `p`;
`power_heuristic(1, f, 1, 0) = 1` for `f_pdf > 0`; and in general (whenever
the denominator is nonzero, so the IEEE division is exact) the result is
`(nf·f_pdf)² / ((nf·f_pdf)² + (ng·g_pdf)²)`. -/
theorem power_heuristic_spec (p fp nf f_pdf ng g_pdf : ℚ)
    (hp : 0 < p) (hfp : 0 < fp)
    (hden : nf * f_pdf ≠ 0 ∨ ng * g_pdf ≠ 0) :
    power_heuristic 1 p 1 p = 1/2
    ∧ power_heuristic 1 fp 1 0 = 1
    ∧ power_heuristic nf f_pdf ng g_pdf
        = (nf * f_pdf)^2 / ((nf * f_pdf)^2 + (ng * g_pdf)^2) := by
  refine ⟨?_, ?_, ?_⟩
  · unfold power_heuristic
    have h2 : p * p + p * p ≠ 0 := by positivity
    field_simp
    ring
  · unfold power_heuristic
    have h2 : fp * fp ≠ 0 := by positivity
    simp only [one_mul, mul_zero, add_zero]
    field_simp
  · show nf * f_pdf * (nf * f_pdf) /
        (nf * f_pdf * (nf * f_pdf) + ng * g_pdf * (ng * g_pdf)) = _
    ring_nf

/-- Witness for `power_heuristic_spec` at `p = 2`, `fp = 3`, `(nf, f_pdf, ng,
g_pdf) = (1, 2, 1, 3)`. -/
theorem power_heuristic_spec_witness :
    power_heuristic 1 2 1 2 = 1/2
    ∧ power_heuristic 1 3 1 0 = 1
    ∧ power_heuristic 1 2 1 3
        = ((1 : ℚ) * 2)^2 / (((1 : ℚ) * 2)^2 + ((1 : ℚ) * 3)^2) :=
  power_heuristic_spec 2 3 1 2 1 3 (by norm_num) (by norm_num) (by norm_num)

/-- C10: every constructed Trowbridge-Reitz distribution has both roughness
components clamped to at least `0.001`, so the factor `PI * alpha.x * alpha.y`
appearing in the denominator of `d(wh)` (bxdf/distribution.rs line 120) is
strictly positive, and `is_specular` holds exactly when both clamped
components lie in `[0.001, 0.04)`. -/
theorem trowbridge_reitz_clamp_invariant (alpha : ℚ × ℚ) :
    (1/1000 ≤ (TrowbridgeReitzDistribution.new alpha).alphaX
      ∧ 1/1000 ≤ (TrowbridgeReitzDistribution.new alpha).alphaY)
    ∧ (0 : ℝ) < Real.pi * ((TrowbridgeReitzDistribution.new alpha).alphaX : ℝ)
        * ((TrowbridgeReitzDistribution.new alpha).alphaY : ℝ)
    ∧ ((TrowbridgeReitzDistribution.new alpha).is_specular ↔
        (1/1000 ≤ (TrowbridgeReitzDistribution.new alpha).alphaX
          ∧ (TrowbridgeReitzDistribution.new alpha).alphaX < 1/25
          ∧ 1/1000 ≤ (TrowbridgeReitzDistribution.new alpha).alphaY
          ∧ (TrowbridgeReitzDistribution.new alpha).alphaY < 1/25)) := by
  have hx : (1/1000 : ℚ) ≤ (TrowbridgeReitzDistribution.new alpha).alphaX :=
    le_max_right _ _
  have hy : (1/1000 : ℚ) ≤ (TrowbridgeReitzDistribution.new alpha).alphaY :=
    le_max_right _ _
  refine ⟨⟨hx, hy⟩, ?_, ?_⟩
  · have hx0 : (0 : ℝ) < ((TrowbridgeReitzDistribution.new alpha).alphaX : ℝ) := by
      exact_mod_cast lt_of_lt_of_le (by norm_num) hx
    have hy0 : (0 : ℝ) < ((TrowbridgeReitzDistribution.new alpha).alphaY : ℝ) := by
      exact_mod_cast lt_of_lt_of_le (by norm_num) hy
    have := Real.pi_pos
    positivity
  · unfold TrowbridgeReitzDistribution.is_specular
    exact ⟨fun h => ⟨hx, h.1, hy, h.2⟩, fun h => ⟨h.2.1, h.2.2.2⟩⟩

/-- C7: for every parameterization (color, Fresnel term, eta values, transport
mode) and all local directions `wo`, `wi`, the three specular BxDFs return
black from `f` and `0` from `pdf`. -/
theorem specular_f_black_pdf_zero
    (rs : ReflectionSpecular) (ts : TransmissionSpecular) (fs : FresnelSpecular)
    (wo wi : Q3) :
    rs.f wo wi = BLACK ∧ rs.pdf wo wi = 0
    ∧ ts.f wo wi = BLACK ∧ ts.pdf wo wi = 0
    ∧ fs.f wo wi = BLACK ∧ fs.pdf wo wi = 0 :=
  ⟨rfl, rfl, rfl, rfl, rfl, rfl⟩

/-- Loop invariant of the `while low < high` loop in `binary_search_cdf`: on a
cdf monotone over indices `≤ N`, starting from `low ≤ high ≤ N` with every
index below `low` known to satisfy `cdf[j] ≤ v` and `high` either equal to the
initial bound `N` or known to satisfy `v < cdf[high]`, the loop returns the
least index `r ∈ [low, high]` with every index below `r` satisfying
`cdf[j] ≤ v` and either `r = N` or `v < cdf[r]`. -/
theorem bsearchLoop_spec (cdf : List ℚ) (v : ℚ) (N : ℕ)
    (hmono : ∀ i j : ℕ, i ≤ j → j ≤ N → cdf.getD i 0 ≤ cdf.getD j 0) :
    ∀ gap low high, high - low ≤ gap → low ≤ high → high ≤ N →
      (∀ j, j < low → cdf.getD j 0 ≤ v) →
      (high = N ∨ v < cdf.getD high 0) →
      low ≤ bsearchLoop cdf v low high
      ∧ bsearchLoop cdf v low high ≤ high
      ∧ (∀ j, j < bsearchLoop cdf v low high → cdf.getD j 0 ≤ v)
      ∧ (bsearchLoop cdf v low high = N
          ∨ v < cdf.getD (bsearchLoop cdf v low high) 0) := by
  intro gap
  induction gap with
  | zero =>
    intro low high hgap hlh hN hbelow habove
    have heq : low = high := by omega
    subst heq
    rw [bsearchLoop]
    simp only [lt_irrefl, dite_false]
    exact ⟨le_rfl, le_rfl, hbelow, habove⟩
  | succ g ih =>
    intro low high hgap hlh hN hbelow habove
    by_cases h : low < high
    · rw [bsearchLoop]
      simp only [dif_pos h]
      by_cases hc : cdf.getD ((low + high) / 2) 0 ≤ v
      · simp only [if_pos hc]
        have hbelow2 : ∀ j, j < (low + high) / 2 + 1 → cdf.getD j 0 ≤ v := by
          intro j hj
          exact le_trans (hmono j ((low + high) / 2) (by omega) (by omega)) hc
        obtain ⟨c1, c2, c3, c4⟩ :=
          ih ((low + high) / 2 + 1) high (by omega) (by omega) hN hbelow2 habove
        exact ⟨by omega, c2, c3, c4⟩
      · simp only [if_neg hc]
        obtain ⟨c1, c2, c3, c4⟩ :=
          ih low ((low + high) / 2) (by omega) (by omega) (by omega) hbelow
            (Or.inr (not_le.1 hc))
        exact ⟨c1, by omega, c3, c4⟩
    · have heq : low = high := by omega
      subst heq
      rw [bsearchLoop]
      simp only [lt_irrefl, dite_false]
      exact ⟨le_rfl, le_rfl, hbelow, habove⟩

/-- C6: on a monotone cdf of length `n + 1` with `cdf[0] = 0` and `cdf[n] = 1`,
for `u ∈ [0, 1)`, `binary_search_cdf` returns the rightmost bucket index whose
cdf value is `≤ u`; it lies in `[0, n-1]`, so the accesses `cdf[i]` and
`cdf[i+1]` made by `sample_continuous` and `sample_discrete` are in bounds. -/
theorem binary_search_cdf_spec (cdf : List ℚ) (n : ℕ) (u : ℚ)
    (hlen : cdf.length = n + 1) (hn : 1 ≤ n)
    (hsorted : cdf.Sorted (· ≤ ·))
    (h0 : cdf.getD 0 0 = 0) (h1 : cdf.getD n 0 = 1)
    (hu0 : 0 ≤ u) (hu1 : u < 1) :
    binary_search_cdf cdf u + 1 ≤ n
    ∧ binary_search_cdf cdf u + 1 < cdf.length
    ∧ cdf.getD (binary_search_cdf cdf u) 0 ≤ u
    ∧ (∀ j, j ≤ n → cdf.getD j 0 ≤ u → j ≤ binary_search_cdf cdf u) := by
  have hmono : ∀ i j : ℕ, i ≤ j → j ≤ n → cdf.getD i 0 ≤ cdf.getD j 0 := by
    intro i j hij hj
    rcases eq_or_lt_of_le hij with rfl | hlt
    · exact le_rfl
    · have hi : i < cdf.length := by omega
      have hjl : j < cdf.length := by omega
      rw [List.getD_eq_getElem?_getD, List.getD_eq_getElem?_getD,
        List.getElem?_eq_getElem hi, List.getElem?_eq_getElem hjl]
      exact hsorted.rel_get_of_lt (show (⟨i, hi⟩ : Fin _) < ⟨j, hjl⟩ from hlt)
  obtain ⟨c1, c2, c3, c4⟩ :=
    bsearchLoop_spec cdf u n hmono n 0 (cdf.length - 1) (by omega) (by omega)
      (by omega) (fun j hj => absurd hj (Nat.not_lt_zero j)) (Or.inl (by omega))
  have hL1 : 1 ≤ bsearchLoop cdf u 0 (cdf.length - 1) := by
    by_contra hcon
    have hz : bsearchLoop cdf u 0 (cdf.length - 1) = 0 := by omega
    rcases c4 with hh | hh
    · omega
    · rw [hz, h0] at hh
      linarith
  have hr : binary_search_cdf cdf u = bsearchLoop cdf u 0 (cdf.length - 1) - 1 := by
    unfold binary_search_cdf clampI
    omega
  refine ⟨by omega, by omega, ?_, ?_⟩
  · exact c3 _ (by omega)
  · intro j hj hcdfj
    by_contra hcon
    have hjL : bsearchLoop cdf u 0 (cdf.length - 1) ≤ j := by omega
    rcases c4 with hh | hh
    · have : j = n := by omega
      rw [this, h1] at hcdfj
      linarith
    · have := hmono _ j hjL hj
      linarith

/-- Helper: indexing a function mapped over `List.range`. -/
theorem getD_map_range (f : ℕ → ℚ) (k i : ℕ) (hi : i < k) :
    ((List.range k).map f).getD i 0 = f i := by
  rw [List.getD_eq_getElem?_getD, List.getElem?_map, List.getElem?_range hi]
  rfl

/-- Helper: prefix sums of a list of non-negative rationals are monotone. -/
theorem take_sum_mono (l : List ℚ) (hnn : ∀ q ∈ l, 0 ≤ q) :
    Monotone (fun i => (l.take i).sum) := by
  apply monotone_nat_of_le_succ
  intro i
  dsimp only
  rw [List.take_succ, List.sum_append]
  have h0 : 0 ≤ (l[i]?.toList).sum := by
    cases h : l[i]? with
    | none => simp
    | some q =>
      obtain ⟨hlt, he⟩ := List.getElem?_eq_some.1 h
      simp only [Option.toList_some, List.sum_cons, List.sum_nil, add_zero]
      exact he ▸ hnn _ (List.getElem_mem hlt)
  linarith

/-- Helper: a map of a globally monotone function over `List.range` is sorted. -/
theorem sorted_map_range (f : ℕ → ℚ) (k : ℕ) (hf : ∀ a b : ℕ, a < b → f a ≤ f b) :
    ((List.range k).map f).Sorted (· ≤ ·) :=
  (List.pairwise_map).2 ((List.pairwise_lt_range k).imp (fun h => hf _ _ h))

/-- Characterization of the cdf entries built by `Distribution1D::new`:
with `n = func.len()`, the unnormalized entry is `cdf[i] = (Σ_{j<i} func[j]) / n`
and `integral = cdf[n] = func.sum / n`; when `integral == 0` the stored entry
is `i / n`, otherwise it is the unnormalized entry divided by `integral`. -/
theorem new_cdf_getD (func : List ℚ) (i : ℕ) (hi : i ≤ func.length) :
    (Distribution1D.new func).cdf.getD i 0 =
      if func.sum / (func.length : ℚ) = 0 then (i : ℚ) / func.length
      else ((func.take i).sum / func.length) / (func.sum / func.length) := by
  unfold Distribution1D.new
  simp only [getD_map_range (fun j => (func.take j).sum / (func.length : ℚ))
    (func.length + 1) func.length (Nat.lt_succ_self _), List.take_length]
  split_ifs with h
  · simp only [getD_map_range _ (func.length + 1) i (by omega)]
  · rw [List.map_map]
    exact getD_map_range _ (func.length + 1) i (by omega)

/-- Helper: `Distribution1D::new` stores `integral = func.sum / n` and the
given `func` unchanged. -/
theorem new_func_integral (func : List ℚ) :
    (Distribution1D.new func).func = func
    ∧ (Distribution1D.new func).integral = func.sum / (func.length : ℚ)
    ∧ (Distribution1D.new func).cdf.length = func.length + 1 := by
  unfold Distribution1D.new
  simp only [getD_map_range (fun j => (func.take j).sum / (func.length : ℚ))
    (func.length + 1) func.length (Nat.lt_succ_self _), List.take_length]
  split_ifs with h <;>
    simp [h, List.length_map, List.length_range]

/-- C5: for a non-empty list of non-negative samples, `Distribution1D::new`
yields a cdf of length `n + 1` that is monotone non-decreasing with
`cdf[0] = 0` and `cdf[n] = 1`; when the sample sum is exactly zero the cdf is
the uniform cdf `cdf[i] = i / n`; the stored `func` is the input unchanged
(the structure offers no mutating operation afterwards). -/
theorem distribution1d_new_invariants (func : List ℚ) (hne : func ≠ [])
    (hnn : ∀ q ∈ func, 0 ≤ q) :
    (Distribution1D.new func).func = func
    ∧ (Distribution1D.new func).cdf.length = func.length + 1
    ∧ (Distribution1D.new func).cdf.Sorted (· ≤ ·)
    ∧ (Distribution1D.new func).cdf.getD 0 0 = 0
    ∧ (Distribution1D.new func).cdf.getD func.length 0 = 1
    ∧ (func.sum = 0 →
        ∀ i, i ≤ func.length →
          (Distribution1D.new func).cdf.getD i 0 = (i : ℚ) / func.length) := by
  have hn : 0 < func.length := List.length_pos.2 hne
  have hnq : (0 : ℚ) < (func.length : ℚ) := by exact_mod_cast hn
  have hsum0 : 0 ≤ func.sum := List.sum_nonneg hnn
  refine ⟨(new_func_integral func).1, (new_func_integral func).2.2, ?_, ?_, ?_, ?_⟩
  · -- monotone cdf
    rw [List.Sorted, List.pairwise_iff_getElem]
    intro i j hi hj hij
    have hlength : (Distribution1D.new func).cdf.length = func.length + 1 :=
      (new_func_integral func).2.2
    have hgi : (Distribution1D.new func).cdf[i] =
        (Distribution1D.new func).cdf.getD i 0 := by
      rw [List.getD_eq_getElem?_getD, List.getElem?_eq_getElem hi]
      rfl
    have hgj : (Distribution1D.new func).cdf[j] =
        (Distribution1D.new func).cdf.getD j 0 := by
      rw [List.getD_eq_getElem?_getD, List.getElem?_eq_getElem hj]
      rfl
    rw [hgi, hgj, new_cdf_getD func i (by omega), new_cdf_getD func j (by omega)]
    split_ifs with h
    · exact div_le_div_of_nonneg_right (by exact_mod_cast hij.le) hnq.le
    · have hIpos : 0 < func.sum / (func.length : ℚ) := by
        have h0 : 0 ≤ func.sum / (func.length : ℚ) := by positivity
        exact h0.lt_of_ne (Ne.symm h)
      exact div_le_div_of_nonneg_right
        (div_le_div_of_nonneg_right (take_sum_mono func hnn hij.le) hnq.le)
        hIpos.le
  · rw [new_cdf_getD func 0 (by omega)]
    split_ifs <;> simp
  · rw [new_cdf_getD func func.length le_rfl]
    split_ifs with h
    · rw [div_self (by exact_mod_cast hn.ne')]
    · rw [List.take_length, div_self h]
  · intro hzero i hi
    rw [new_cdf_getD func i hi]
    rw [hzero]
    simp

/-- Witness for `binary_search_cdf_spec` on the cdf `[0, 0, 1]` (`n = 2`)
at `u = 3/4`. -/
theorem binary_search_cdf_spec_witness :
    (([0, 0, 1] : List ℚ).Sorted (· ≤ ·) ∧ (0 : ℚ) ≤ 3/4 ∧ (3/4 : ℚ) < 1)
    ∧ (binary_search_cdf [0, 0, 1] (3/4) + 1 ≤ 2
       ∧ binary_search_cdf [0, 0, 1] (3/4) + 1 < ([0, 0, 1] : List ℚ).length
       ∧ ([0, 0, 1] : List ℚ).getD (binary_search_cdf [0, 0, 1] (3/4)) 0 ≤ 3/4
       ∧ (∀ j, j ≤ 2 → ([0, 0, 1] : List ℚ).getD j 0 ≤ 3/4 →
            j ≤ binary_search_cdf [0, 0, 1] (3/4))) :=
  ⟨⟨by decide, by norm_num, by norm_num⟩,
   binary_search_cdf_spec [0, 0, 1] 2 (3/4) (by decide) (by norm_num) (by decide)
     (by decide) (by decide) (by norm_num) (by norm_num)⟩

/-- Witness for `distribution1d_new_invariants` at `func = [0, 0]` (the
all-zero, uniform-fallback case). -/
theorem distribution1d_new_invariants_witness :
    (([0, 0] : List ℚ) ≠ [] ∧ ∀ q ∈ ([0, 0] : List ℚ), 0 ≤ q)
    ∧ ((Distribution1D.new [0, 0]).func = [0, 0]
       ∧ (Distribution1D.new [0, 0]).cdf.length = ([0, 0] : List ℚ).length + 1
       ∧ (Distribution1D.new [0, 0]).cdf.Sorted (· ≤ ·)
       ∧ (Distribution1D.new [0, 0]).cdf.getD 0 0 = 0
       ∧ (Distribution1D.new [0, 0]).cdf.getD ([0, 0] : List ℚ).length 0 = 1
       ∧ (([0, 0] : List ℚ).sum = 0 →
           ∀ i, i ≤ ([0, 0] : List ℚ).length →
             (Distribution1D.new [0, 0]).cdf.getD i 0
               = (i : ℚ) / ([0, 0] : List ℚ).length)) :=
  ⟨⟨by decide, by decide⟩,
   distribution1d_new_invariants [0, 0] (by decide) (by decide)⟩

/-- C2 (code bug): for the `Distribution1D` built from `[1, 1, 1, 1]` the
sampled position at `u = 1/10` is `2/25 = 0.08`, not `u = 1/10`, because
`sample_continuous` divides `offset + du` by `self.cdf.len() = n + 1 = 5`
instead of by `self.count() = n = 4`; the reported pdf is `1` as claimed. -/
theorem sample_continuous_uniform4_bug :
    (Distribution1D.new [1, 1, 1, 1]).sample_continuous (1/10) = ((0, 2/25), 1)
    ∧ (2/25 : ℚ) ≠ 1/10 := by
  constructor
  · have hd : Distribution1D.new [1, 1, 1, 1]
        = ⟨[0, 1/4, 1/2, 3/4, 1], [1, 1, 1, 1], 1⟩ := by
      simp [Distribution1D.new, List.range_succ]
      norm_num
    rw [hd]
    simp [Distribution1D.sample_continuous, binary_search_cdf, bsearchLoop, clampI]
    norm_num
  · norm_num

/-- Helper: the `(count, pdf)` fold of `BSDF::pdf` computes the list length
and the sum of the per-term pdfs. -/
theorem foldl_count_sum (g : BxDFTerm → ℚ) :
    ∀ (l : List BxDFTerm) (c : ℕ) (p : ℚ),
      l.foldl (fun cp t => (cp.1 + 1, cp.2 + g t)) (c, p)
        = (c + l.length, p + (l.map g).sum) := by
  intro l
  induction l with
  | nil => intro c p; simp
  | cons t ts ih =>
    intro c p
    simp only [List.foldl_cons, List.map_cons, List.sum_cons, List.length_cons, ih]
    rw [Prod.mk.injEq]
    constructor
    · omega
    · ring

/-- C4 (amended): `BSDF::pdf` returns the arithmetic mean of the analytic
pdfs of the terms matching the mask whenever at least one term matches; when
no term matches, the unguarded division is IEEE `0.0 / 0.0` (NaN, modelled as
`none`), not `0`. -/
theorem bsdf_pdf_spec (b : BSDF) (wo wi : Q3) (kind : BxDFKind) :
    b.pdf wo wi kind =
      if b.num_components kind = 0 then none
      else some ((((b.bxdfs.filter (fun t => decide (t.kind.matches kind))).map
          (fun t => t.pdfFn wo wi)).sum) / (b.num_components kind : ℚ)) := by
  unfold BSDF.pdf BSDF.num_components
  rw [foldl_count_sum]
  simp only [Nat.zero_add, zero_add, fdiv]
  split_ifs with h1 h2 h3
  · rfl
  · exact absurd (by exact_mod_cast h1) h2
  · exact absurd (by exact_mod_cast h3) h1
  · rfl

/-- C4 counterexample: a BSDF holding one DIFFUSE|REFLECTION term queried
with the SPECULAR mask has no matching term, and `pdf` returns the non-real
result of `0.0 / 0.0` (`none`), not `0`. -/
theorem bsdf_pdf_no_match_counterexample :
    BSDF.pdf
      ⟨[⟨BxDFKind.DIFFUSE.set BxDFKind.REFLECTION, fun _ _ => BLACK, fun _ _ => 0,
         fun _ => (BLACK, 0, BLACK, 0)⟩], ⟨0, 0, 1⟩, ⟨0, 0, 1⟩, ⟨0, 1, 0⟩, ⟨1, 0, 0⟩⟩
      ⟨0, 0, 1⟩ ⟨0, 0, 1⟩ BxDFKind.SPECULAR = none
    ∧ (none : Option ℚ) ≠ some 0 := by
  constructor
  · rfl
  · simp

/-- Helper: filtering an enumerated list by a predicate on the element keeps
as many entries as filtering the plain list. -/
theorem enumFrom_filter_length {α : Type} (q : α → Bool) :
    ∀ (l : List α) (k : ℕ),
      ((List.enumFrom k l).filter (fun p => q p.2)).length = (l.filter q).length := by
  intro l
  induction l with
  | nil => intro k; rfl
  | cons t ts ih =>
    intro k
    simp only [List.enumFrom, List.filter_cons]
    cases hq : q t <;> simp [hq, ih]

/-- Helper: every index produced by `List.enumFrom k` is at least `k`. -/
theorem mem_enumFrom_ge {α : Type} :
    ∀ (l : List α) (k : ℕ) (p : ℕ × α), p ∈ List.enumFrom k l → k ≤ p.1 := by
  intro l
  induction l with
  | nil => intro k p hp; simp [List.enumFrom] at hp
  | cons t ts ih =>
    intro k p hp
    simp only [List.enumFrom, List.mem_cons] at hp
    rcases hp with rfl | hp
    · exact le_rfl
    · exact le_trans (Nat.le_succ k) (ih (k + 1) p hp)

/-- Helper: the indices produced by `List.enumFrom` are pairwise distinct. -/
theorem enumFrom_keys_pairwise {α : Type} :
    ∀ (l : List α) (k : ℕ),
      (List.enumFrom k l).Pairwise (fun a b => a.1 ≠ b.1) := by
  intro l
  induction l with
  | nil => intro k; exact List.Pairwise.nil
  | cons t ts ih =>
    intro k
    refine List.Pairwise.cons ?_ (ih (k + 1))
    intro p hp
    have := mem_enumFrom_ge ts (k + 1) p hp
    omega

/-- Helper: summing a keyed list where the unique entry with key `bi` is
replaced by `c` equals `c` plus the sum over the entries with other keys. -/
theorem sum_if_key {α : Type} (g : ℕ × α → ℚ) (c : ℚ) (bi : ℕ) :
    ∀ (pairs : List (ℕ × α)),
      pairs.Pairwise (fun a b => a.1 ≠ b.1) →
      (∃ t, (bi, t) ∈ pairs) →
      (pairs.map (fun p => if p.1 = bi then c else g p)).sum
        = c + ((pairs.filter (fun p => decide (p.1 ≠ bi))).map g).sum := by
  intro pairs
  induction pairs with
  | nil =>
    rintro _ ⟨t, ht⟩
    exact absurd ht (List.not_mem_nil _)
  | cons hd tl ih =>
    rintro hpw ⟨t, ht⟩
    have hpw1 := (List.pairwise_cons.1 hpw).1
    have hpw2 := (List.pairwise_cons.1 hpw).2
    rcases List.mem_cons.1 ht with heq | hmem
    · have hd1 : hd.1 = bi := by rw [← heq]
      have htl : ∀ p ∈ tl, p.1 ≠ bi := by
        intro p hp hcon
        exact hpw1 p hp (by rw [hd1, hcon])
      simp only [List.map_cons, List.sum_cons, if_pos hd1, List.filter_cons]
      have hno : (decide (hd.1 ≠ bi)) = false := by simp [hd1]
      rw [hno]
      simp only [Bool.false_eq_true, if_false]
      congr 1
      rw [List.map_congr_left (fun p hp => if_neg (htl p hp)),
        List.filter_eq_self.2 (fun p hp => by simpa using htl p hp)]
    · have hd1 : hd.1 ≠ bi := by
        intro hcon
        exact hpw1 (bi, t) hmem (by rw [hcon])
      simp only [List.map_cons, List.sum_cons, if_neg hd1, List.filter_cons]
      have hyes : (decide (hd.1 ≠ bi)) = true := by simpa using hd1
      rw [hyes]
      simp only [if_true, List.map_cons, List.sum_cons]
      rw [ih hpw2 ⟨t, hmem⟩]
      ring

/-- Helper: the `BLACK`-seeded accumulation fold equals the sum of the mapped
list. -/
theorem foldl_add_eq_sum (g : BxDFTerm → Q3) :
    ∀ (l : List BxDFTerm) (acc : Q3),
      l.foldl (fun f t => f + g t) acc = acc + (l.map g).sum := by
  intro l
  induction l with
  | nil => intro acc; simp
  | cons t ts ih =>
    intro acc
    simp only [List.foldl_cons, List.map_cons, List.sum_cons, ih]
    rw [add_assoc]

/-- Helper: `BSDF::f_normal_space` is the sum of `f` over the terms matching
the mask whose REFLECTION/TRANSMISSION bit agrees with `reflect`. -/
theorem f_normal_space_eq_sum (b : BSDF) (wo wi : Q3) (reflect : Bool)
    (kind : BxDFKind) :
    b.f_normal_space wo wi reflect kind
      = ((b.bxdfs.filter (fun t =>
          decide (t.kind.matches kind) &&
            ((reflect && decide (t.kind.has BxDFKind.REFLECTION)) ||
             (!reflect && decide (t.kind.has BxDFKind.TRANSMISSION))))).map
          (fun t => t.f wo wi)).sum := by
  unfold BSDF.f_normal_space
  rw [foldl_add_eq_sum]
  exact zero_add _

/-- C3: `BSDF::sample_f` with mask `kind` and component draw `u ∈ [0,1)`:
(1) when no stored term matches the mask it returns black with pdf `0`
(leaving the out-parameters unchanged); (2) otherwise the clamped index
`comp = min(⌊u·n⌋, n-1)` selects exactly one matching term (the `nth` lookup
succeeds); (3) when the selected term is not SPECULAR (and the local `wo` is
not degenerate), the returned pdf is the arithmetic mean over all matching
terms of their analytic pdf at the sampled `wi`, the selected term
contributing the pdf it reported, and (4) when more than one term matches,
the returned color is recomputed as the sum of `f` over the matching terms
whose REFLECTION/TRANSMISSION bit agrees with the geometric-normal
hemisphere test, instead of the selected term's own color. -/
theorem bsdf_sample_f_spec (b : BSDF) (wo_world : Q3) (u : ℚ) (wi0 : Q3)
    (sk0 kind : BxDFKind) (n comp : ℕ) (pairs : List (ℕ × BxDFTerm)) (wo : Q3)
    (hu0 : 0 ≤ u) (hu1 : u < 1)
    (hn : n = b.num_components kind)
    (hpairs : pairs = b.bxdfs.enum.filter (fun p => decide (p.2.kind.matches kind)))
    (hcomp : comp = min (Int.toNat ⌊u * (n : ℚ)⌋) (n - 1))
    (hwo : wo = b.world_to_normal wo_world) :
    (n = 0 → b.sample_f wo_world u wi0 sk0 kind = ⟨BLACK, wi0, 0, sk0⟩)
    ∧ (n ≠ 0 →
        comp < n
        ∧ (∃ q, pairs[comp]? = some q)
        ∧ (wo.z ≠ 0 → ∀ bi t, pairs[comp]? = some (bi, t) →
            ¬ t.kind.has BxDFKind.SPECULAR →
            ∀ wi pdf0 f0 sk, t.sampleF wo = (wi, pdf0, f0, sk) →
              ((b.sample_f wo_world u wi0 sk0 kind).pdf
                 = (pairs.map (fun p =>
                     if p.1 = bi then pdf0 else p.2.pdfFn wo wi)).sum / (n : ℚ))
              ∧ (1 < n →
                 (b.sample_f wo_world u wi0 sk0 kind).f
                   = ((b.bxdfs.filter (fun t' =>
                        decide (t'.kind.matches kind
                          ∧ ((0 < dot3 (b.normal_to_world wi) b.geom_normal
                                * dot3 wo_world b.geom_normal
                              ∧ t'.kind.has BxDFKind.REFLECTION)
                             ∨ (¬ (0 < dot3 (b.normal_to_world wi) b.geom_normal
                                    * dot3 wo_world b.geom_normal)
                                ∧ t'.kind.has BxDFKind.TRANSMISSION))))).map
                       (fun t' => t'.f wo wi)).sum))) := by
  subst hn hpairs hcomp hwo
  have hlen : (b.bxdfs.enum.filter (fun p => decide (p.2.kind.matches kind))).length
      = b.num_components kind :=
    enumFrom_filter_length (fun t => decide (t.kind.matches kind)) b.bxdfs 0
  constructor
  · intro h0
    unfold BSDF.sample_f
    rw [if_pos h0]
  · intro hn0
    have hcomplt :
        min (Int.toNat ⌊u * ((b.num_components kind : ℕ) : ℚ)⌋)
          (b.num_components kind - 1) < b.num_components kind := by omega
    refine ⟨hcomplt, ?_, ?_⟩
    · exact ⟨_, List.getElem?_eq_getElem (by omega : _ < _)⟩
    · intro hwoz bi t hsel hnspec wi pdf0 f0 sk hsample
      have hmem : (bi, t) ∈ b.bxdfs.enum.filter
          (fun p => decide (p.2.kind.matches kind)) := by
        obtain ⟨hlt, he⟩ := List.getElem?_eq_some.1 hsel
        exact he ▸ List.getElem_mem hlt
      have hrun : b.sample_f wo_world u wi0 sk0 kind =
          if 1 < b.num_components kind then
            ⟨b.f_normal_space (b.world_to_normal wo_world) wi
              (decide (0 < dot3 (b.normal_to_world wi) b.geom_normal
                * dot3 wo_world b.geom_normal)) kind,
             b.normal_to_world wi,
             (pdf0 + ((b.bxdfs.enum.filter (fun p =>
                 decide (p.1 ≠ bi) && decide (p.2.kind.matches kind))).map
                 (fun p => p.2.pdfFn (b.world_to_normal wo_world) wi)).sum)
               / (b.num_components kind : ℚ),
             sk⟩
          else
            ⟨f0, b.normal_to_world wi,
             (pdf0 + ((b.bxdfs.enum.filter (fun p =>
                 decide (p.1 ≠ bi) && decide (p.2.kind.matches kind))).map
                 (fun p => p.2.pdfFn (b.world_to_normal wo_world) wi)).sum)
               / (b.num_components kind : ℚ),
             sk⟩ := by
        unfold BSDF.sample_f
        rw [if_neg hn0]
        simp only [hsel]
        rw [if_neg hwoz]
        simp only [hsample]
        rw [if_neg hnspec]
      have hpairwise : (b.bxdfs.enum.filter
          (fun p => decide (p.2.kind.matches kind))).Pairwise
            (fun a b => a.1 ≠ b.1) :=
        (enumFrom_keys_pairwise b.bxdfs 0).sublist (List.filter_sublist _)
      have hkey := sum_if_key (fun p => p.2.pdfFn (b.world_to_normal wo_world) wi)
        pdf0 bi (b.bxdfs.enum.filter (fun p => decide (p.2.kind.matches kind)))
        hpairwise ⟨t, hmem⟩
      constructor
      · rw [hrun]
        rw [apply_ite SampleFOut.pdf]
        simp only [ite_self]
        rw [hkey, List.filter_filter]
      · intro h1n
        rw [hrun, if_pos h1n]
        show b.f_normal_space (b.world_to_normal wo_world) wi _ kind = _
        rw [f_normal_space_eq_sum]
        congr 1
        congr 1
        apply List.filter_congr
        intro t' _
        by_cases hrefl : 0 < dot3 (b.normal_to_world wi) b.geom_normal
            * dot3 wo_world b.geom_normal <;>
          by_cases hm : t'.kind.matches kind <;>
          by_cases hR : t'.kind.has BxDFKind.REFLECTION <;>
          by_cases hT : t'.kind.has BxDFKind.TRANSMISSION <;>
          simp [hrefl, hm, hR, hT]

/-- Witness for `bsdf_sample_f_spec` on a two-term BSDF at `u = 0` with mask
`ALL`. -/
theorem bsdf_sample_f_spec_witness :
    (2 = 0 → wBSDF.sample_f ⟨0, 0, 1⟩ 0 ⟨0, 0, 0⟩ 0 BxDFKind.ALL
        = ⟨BLACK, ⟨0, 0, 0⟩, 0, 0⟩)
    ∧ (2 ≠ 0 →
        0 < 2
        ∧ (∃ q, ([(0, wTermA), (1, wTermB)] : List (ℕ × BxDFTerm))[(0 : ℕ)]? = some q)
        ∧ ((⟨0, 0, 1⟩ : Q3).z ≠ 0 → ∀ bi t,
            ([(0, wTermA), (1, wTermB)] : List (ℕ × BxDFTerm))[(0 : ℕ)]? = some (bi, t) →
            ¬ t.kind.has BxDFKind.SPECULAR →
            ∀ wi pdf0 f0 sk, t.sampleF ⟨0, 0, 1⟩ = (wi, pdf0, f0, sk) →
              ((wBSDF.sample_f ⟨0, 0, 1⟩ 0 ⟨0, 0, 0⟩ 0 BxDFKind.ALL).pdf
                 = (([(0, wTermA), (1, wTermB)] : List (ℕ × BxDFTerm)).map (fun p =>
                     if p.1 = bi then pdf0 else p.2.pdfFn ⟨0, 0, 1⟩ wi)).sum / ((2 : ℕ) : ℚ))
              ∧ (1 < 2 →
                 (wBSDF.sample_f ⟨0, 0, 1⟩ 0 ⟨0, 0, 0⟩ 0 BxDFKind.ALL).f
                   = ((wBSDF.bxdfs.filter (fun t' =>
                        decide (t'.kind.matches BxDFKind.ALL
                          ∧ ((0 < dot3 (wBSDF.normal_to_world wi) wBSDF.geom_normal
                                * dot3 ⟨0, 0, 1⟩ wBSDF.geom_normal
                              ∧ t'.kind.has BxDFKind.REFLECTION)
                             ∨ (¬ (0 < dot3 (wBSDF.normal_to_world wi) wBSDF.geom_normal
                                    * dot3 ⟨0, 0, 1⟩ wBSDF.geom_normal)
                                ∧ t'.kind.has BxDFKind.TRANSMISSION))))).map
                       (fun t' => t'.f ⟨0, 0, 1⟩ wi)).sum))) :=
  bsdf_sample_f_spec wBSDF ⟨0, 0, 1⟩ 0 ⟨0, 0, 0⟩ 0 BxDFKind.ALL 2 0
    [(0, wTermA), (1, wTermB)] ⟨0, 0, 1⟩ le_rfl (by norm_num) (by rfl) (by rfl)
    (by norm_num) (by norm_num [wBSDF, BSDF.world_to_normal, dot3])

/-- Gram identity (1,1): completeness entry of the frame matrix. -/
theorem gram11 (n1 n2 n3 t1 t2 t3 : ℝ)
    (hn : n1 * n1 + n2 * n2 + n3 * n3 = 1) (ht : t1 * t1 + t2 * t2 + t3 * t3 = 1)
    (hnt : n1 * t1 + n2 * t2 + n3 * t3 = 0) :
    (n2 * t3 - n3 * t2) * (n2 * t3 - n3 * t2) + t1 * t1 + n1 * n1 = 1 := by
  linear_combination (t2^2 + t3^2) * hn + (1 - n1^2) * ht
    + (n1 * t1 - n2 * t2 - n3 * t3) * hnt

/-- Gram identity (2,2). -/
theorem gram22 (n1 n2 n3 t1 t2 t3 : ℝ)
    (hn : n1 * n1 + n2 * n2 + n3 * n3 = 1) (ht : t1 * t1 + t2 * t2 + t3 * t3 = 1)
    (hnt : n1 * t1 + n2 * t2 + n3 * t3 = 0) :
    (n3 * t1 - n1 * t3) * (n3 * t1 - n1 * t3) + t2 * t2 + n2 * n2 = 1 := by
  linear_combination (t1^2 + t3^2) * hn + (1 - n2^2) * ht
    + (n2 * t2 - n1 * t1 - n3 * t3) * hnt

/-- Gram identity (3,3). -/
theorem gram33 (n1 n2 n3 t1 t2 t3 : ℝ)
    (hn : n1 * n1 + n2 * n2 + n3 * n3 = 1) (ht : t1 * t1 + t2 * t2 + t3 * t3 = 1)
    (hnt : n1 * t1 + n2 * t2 + n3 * t3 = 0) :
    (n1 * t2 - n2 * t1) * (n1 * t2 - n2 * t1) + t3 * t3 + n3 * n3 = 1 := by
  linear_combination (t1^2 + t2^2) * hn + (1 - n3^2) * ht
    + (n3 * t3 - n1 * t1 - n2 * t2) * hnt

/-- Gram identity (1,2). -/
theorem gram12 (n1 n2 n3 t1 t2 t3 : ℝ)
    (hn : n1 * n1 + n2 * n2 + n3 * n3 = 1) (ht : t1 * t1 + t2 * t2 + t3 * t3 = 1)
    (hnt : n1 * t1 + n2 * t2 + n3 * t3 = 0) :
    (n2 * t3 - n3 * t2) * (n3 * t1 - n1 * t3) + t1 * t2 + n1 * n2 = 0 := by
  linear_combination (-(t1 * t2)) * hn + (-(n1 * n2)) * ht
    + (n1 * t2 + n2 * t1) * hnt

/-- Gram identity (1,3). -/
theorem gram13 (n1 n2 n3 t1 t2 t3 : ℝ)
    (hn : n1 * n1 + n2 * n2 + n3 * n3 = 1) (ht : t1 * t1 + t2 * t2 + t3 * t3 = 1)
    (hnt : n1 * t1 + n2 * t2 + n3 * t3 = 0) :
    (n2 * t3 - n3 * t2) * (n1 * t2 - n2 * t1) + t1 * t3 + n1 * n3 = 0 := by
  linear_combination (-(t1 * t3)) * hn + (-(n1 * n3)) * ht
    + (n1 * t3 + n3 * t1) * hnt

/-- Gram identity (2,3). -/
theorem gram23 (n1 n2 n3 t1 t2 t3 : ℝ)
    (hn : n1 * n1 + n2 * n2 + n3 * n3 = 1) (ht : t1 * t1 + t2 * t2 + t3 * t3 = 1)
    (hnt : n1 * t1 + n2 * t2 + n3 * t3 = 0) :
    (n3 * t1 - n1 * t3) * (n1 * t2 - n2 * t1) + t2 * t3 + n2 * n3 = 0 := by
  linear_combination (-(t2 * t3)) * hn + (-(n2 * n3)) * ht
    + (n2 * t3 + n3 * t2) * hnt

/-- C8: for a frame built by `BSDF::new` from a unit normal and a unit
tangent orthogonal to it, `normal_to_world` and `world_to_normal` are exact
mutual inverses over the reals (hence equal within any floating tolerance)
for every direction `d`. -/
theorem frame_roundtrip (normal tangent d : R3)
    (hn : dotR normal normal = 1) (ht : dotR tangent tangent = 1)
    (hnt : dotR normal tangent = 0) :
    (BSDFFrame.new normal tangent).normal_to_world
        ((BSDFFrame.new normal tangent).world_to_normal d) = d
    ∧ (BSDFFrame.new normal tangent).world_to_normal
        ((BSDFFrame.new normal tangent).normal_to_world d) = d := by
  have lag : dotR (crossR normal tangent) (crossR normal tangent)
      = dotR normal normal * dotR tangent tangent
        - dotR normal tangent * dotR normal tangent := by
    obtain ⟨n1, n2, n3⟩ := normal
    obtain ⟨t1, t2, t3⟩ := tangent
    simp only [dotR, crossR]
    ring
  have hcc : dotR (crossR normal tangent) (crossR normal tangent) = 1 := by
    rw [lag, hn, ht, hnt]
    ring
  have hnorm : normalizeR (crossR normal tangent) = crossR normal tangent := by
    unfold normalizeR
    rw [hcc, Real.sqrt_one]
    simp
  simp only [BSDFFrame.new, BSDFFrame.world_to_normal, BSDFFrame.normal_to_world,
    hnorm]
  obtain ⟨n1, n2, n3⟩ := normal
  obtain ⟨t1, t2, t3⟩ := tangent
  obtain ⟨d1, d2, d3⟩ := d
  simp only [dotR] at hn ht hnt
  simp only [dotR, crossR, R3.mk.injEq]
  constructor
  · refine ⟨?_, ?_, ?_⟩
    · linear_combination
        d1 * gram11 n1 n2 n3 t1 t2 t3 hn ht hnt
        + d2 * gram12 n1 n2 n3 t1 t2 t3 hn ht hnt
        + d3 * gram13 n1 n2 n3 t1 t2 t3 hn ht hnt
    · linear_combination
        d1 * gram12 n1 n2 n3 t1 t2 t3 hn ht hnt
        + d2 * gram22 n1 n2 n3 t1 t2 t3 hn ht hnt
        + d3 * gram23 n1 n2 n3 t1 t2 t3 hn ht hnt
    · linear_combination
        d1 * gram13 n1 n2 n3 t1 t2 t3 hn ht hnt
        + d2 * gram23 n1 n2 n3 t1 t2 t3 hn ht hnt
        + d3 * gram33 n1 n2 n3 t1 t2 t3 hn ht hnt
  · have hl : (n2 * t3 - n3 * t2) * (n2 * t3 - n3 * t2)
        + (n3 * t1 - n1 * t3) * (n3 * t1 - n1 * t3)
        + (n1 * t2 - n2 * t1) * (n1 * t2 - n2 * t1) = 1 := by
      linear_combination (t1^2 + t2^2 + t3^2) * hn + ht
        + (-(n1 * t1 + n2 * t2 + n3 * t3)) * hnt
    refine ⟨?_, ?_, ?_⟩
    · linear_combination d1 * hl
    · linear_combination d2 * ht + d3 * hnt
    · linear_combination d3 * hn + d2 * hnt

/-- Witness for `frame_roundtrip` at `normal = (0,0,1)`, `tangent = (0,1,0)`,
`d = (1,2,3)`. -/
theorem frame_roundtrip_witness :
    (BSDFFrame.new ⟨0, 0, 1⟩ ⟨0, 1, 0⟩).normal_to_world
        ((BSDFFrame.new ⟨0, 0, 1⟩ ⟨0, 1, 0⟩).world_to_normal ⟨1, 2, 3⟩) = ⟨1, 2, 3⟩
    ∧ (BSDFFrame.new ⟨0, 0, 1⟩ ⟨0, 1, 0⟩).world_to_normal
        ((BSDFFrame.new ⟨0, 0, 1⟩ ⟨0, 1, 0⟩).normal_to_world ⟨1, 2, 3⟩) = ⟨1, 2, 3⟩ :=
  frame_roundtrip ⟨0, 0, 1⟩ ⟨0, 1, 0⟩ ⟨1, 2, 3⟩ (by norm_num [dotR])
    (by norm_num [dotR]) (by norm_num [dotR])

end Pbrtrs
